import Mathlib

/-!
Verification of the router builder (`src/router/builder.rs`): path
normalization, segment-tree construction via `build_subtree`, and the
`RouterBuilder` / `RouterBuilderTo` registration protocol.

The builder file is the only source present; the tree-node API it calls
(`NodeBuilder` with `has_child` / `add_child` / `borrow_mut_child` /
`add_route`) and the route constituents (`MethodOnlyRouteMatcher`,
`DispatcherImpl`, `RouteImpl`, `Delegation`) are modelled from the spec,
as noted on each definition.
-/

namespace Gotham

/-- HTTP method (from `hyper::Method`; only the variants the builder uses
plus a few others). -/
inductive Method : Type where
  | Get
  | Head
  | Post
  | Put
  | Delete
  | Options
  | Patch
deriving DecidableEq, Repr

/-- `SegmentType` from `router::tree::node`: a path segment is either an
exact-match static segment or a dynamic capture. -/
inductive SegmentType : Type where
  | Static
  | Dynamic
deriving DecidableEq, Repr

/-- `Delegation` flag of a route: `Internal` terminates routing at the
matched node, `External` delegates to a nested router. -/
inductive Delegation : Type where
  | Internal
  | External
deriving DecidableEq, Repr

/-- Modelled from the spec: `MethodOnlyRouteMatcher` — "a route matches if
the request's method is in its registered method set"; the builder
constructs it with `MethodOnlyRouteMatcher::new(methods)`, so it holds
exactly the supplied method list. -/
structure MethodOnlyRouteMatcher : Type where
  methods : List Method
deriving DecidableEq, Repr

/-- `MethodOnlyRouteMatcher::new(methods)`. -/
def MethodOnlyRouteMatcher.new (methods : List Method) : MethodOnlyRouteMatcher :=
  ⟨methods⟩

/-- Modelled from the spec: `DispatcherImpl::new(new_handler,
pipeline_chain, pipelines)` — the dispatcher "binds a handler factory to a
pipeline chain" and the pipeline set; we record exactly those three
components. `H` is the handler-factory type, `C` the pipeline handle
chain, `P` the pipeline set. -/
structure DispatcherImpl (H C P : Type) : Type where
  new_handler : H
  pipeline_chain : C
  pipelines : P
deriving DecidableEq, Repr

/-- `DispatcherImpl::new`. -/
def DispatcherImpl.new {H C P : Type} (nh : H) (c : C) (p : P) : DispatcherImpl H C P :=
  ⟨nh, c, p⟩

/-- Modelled from the spec: `RouteImpl::new(matcher, dispatcher,
extractors, delegation)` — a route "owns a matcher, a dispatcher,
extraction rules ... and a `Delegation` flag". The builder always passes
`Extractors::new()` for the noop extractors, modelled as `Unit`. -/
structure RouteImpl (H C P : Type) : Type where
  matcher : MethodOnlyRouteMatcher
  dispatcher : DispatcherImpl H C P
  extractors : Unit
  delegation : Delegation
deriving DecidableEq, Repr

/-- `RouteImpl::new`. -/
def RouteImpl.new {H C P : Type} (m : MethodOnlyRouteMatcher) (d : DispatcherImpl H C P)
    (e : Unit) (del : Delegation) : RouteImpl H C P :=
  ⟨m, d, e, del⟩

/-- Modelled from the spec: `NodeBuilder` from `router::tree::node` — a
mutable tree node owning "a mapping from `(name, segment_type)` to child
node" and "a mapping from route-identifier to `Route`"; we model the
children as a list of nodes (keyed by their own `(name, segment_type)`)
and the routes as a list in registration order. `R` is the route type. -/
inductive NodeBuilder (R : Type) : Type where
  | mk (name : String) (segment_type : SegmentType)
       (children : List (NodeBuilder R)) (routes : List R)

namespace NodeBuilder

variable {R : Type}

def name : NodeBuilder R → String
  | .mk n _ _ _ => n

def segment_type : NodeBuilder R → SegmentType
  | .mk _ st _ _ => st

def children : NodeBuilder R → List (NodeBuilder R)
  | .mk _ _ cs _ => cs

def routes : NodeBuilder R → List R
  | .mk _ _ _ rs => rs

/-- The `(name, segment_type)` key of a node. -/
def key (t : NodeBuilder R) : String × SegmentType :=
  (t.name, t.segment_type)

/-- Whether a node's key matches `(n, st)`. -/
def keyIs (n : String) (st : SegmentType) (t : NodeBuilder R) : Bool :=
  t.name == n && t.segment_type == st

/-- `NodeBuilder::new(segment, segment_type)`: a fresh node with no
children and no routes. -/
def new (n : String) (st : SegmentType) : NodeBuilder R :=
  .mk n st [] []

/-- Modelled from the spec: `has_child(name, type)` — whether a child
keyed by `(name, type)` exists. -/
def has_child (t : NodeBuilder R) (n : String) (st : SegmentType) : Bool :=
  t.children.any (keyIs n st)

/-- Modelled from the spec: `add_child(node)` — inserts a child under the
current node (callers guard with `has_child`, so we simply append). -/
def add_child (t : NodeBuilder R) (c : NodeBuilder R) : NodeBuilder R :=
  .mk t.name t.segment_type (t.children ++ [c]) t.routes

/-- Modelled from the spec: the lookup half of `borrow_mut_child(name,
type)` — the first child keyed by `(name, type)`, if any. -/
def findChild (t : NodeBuilder R) (n : String) (st : SegmentType) :
    Option (NodeBuilder R) :=
  t.children.find? (keyIs n st)

end NodeBuilder

/-- Replace the first element satisfying `p` with `x`. -/
def replaceFirst {α : Type} (p : α → Bool) (x : α) : List α → List α
  | [] => []
  | a :: as => if p a then x :: as else a :: replaceFirst p x as

namespace NodeBuilder

variable {R : Type}

/-- The write-back half of `borrow_mut_child`: replace the first child
keyed by `(n, st)` with `c` (mutation through the borrowed reference). -/
def setChild (t : NodeBuilder R) (n : String) (st : SegmentType)
    (c : NodeBuilder R) : NodeBuilder R :=
  .mk t.name t.segment_type (replaceFirst (keyIs n st) c t.children) t.routes

/-- Modelled from the spec: `add_route(route)` — "appends a route to the
current node's route list". -/
def add_route (t : NodeBuilder R) (r : R) : NodeBuilder R :=
  .mk t.name t.segment_type t.children (t.routes ++ [r])

end NodeBuilder

/-! ## Path normalization and segment parsing (`RouterBuilder::request`,
`build_subtree`) -/

/-- Rust's `str::split("/")` at the character level: splitting the empty
string yields `[""]`, a separator at either end yields an empty piece
there, and adjacent separators yield empty pieces between them. -/
def splitSlash : List Char → List String
  | [] => [""]
  | c :: cs =>
    if c = '/' then "" :: splitSlash cs
    else
      match splitSlash cs with
      | [] => [String.mk [c]]
      | s :: ss => String.mk (c :: s.data) :: ss

/-- `path.split("/")` as called in `RouterBuilder::request`. -/
def pathSplit (s : String) : List String :=
  splitSlash s.data

/-- The leading-`/` strip at the top of `RouterBuilder::request`:
`if path.starts_with("/") { &path[1..] } else { path }`. -/
def stripSlash (s : String) : String :=
  match s.data with
  | '/' :: rest => String.mk rest
  | _ => s

/-- The segment classification inside `build_subtree`: a segment starting
with `:` becomes a `Dynamic` key named by the rest of the segment,
anything else a `Static` key named by the whole segment. -/
def parseSegment (s : String) : String × SegmentType :=
  match s.data with
  | ':' :: rest => (String.mk rest, SegmentType.Dynamic)
  | _ => (s, SegmentType.Static)

/-- The `has_child`-guarded `add_child` step of `build_subtree`
(`if !node.has_child(segment, segment_type) { node.add_child(...) }`). -/
def childEnsure {R : Type} (node : NodeBuilder R) (n : String)
    (st : SegmentType) : NodeBuilder R :=
  if node.has_child n st then node
  else node.add_child (NodeBuilder.new n st)

/-- `build_subtree(node, i)` from `router/builder.rs`, as a function from
the current subtree and the remaining segments to the updated subtree.
The Rust function walks down a chain of mutable borrows and returns a
`&mut` to the reached node; here each recursive result is written back
with `setChild`, and the `.unwrap()` on `borrow_mut_child` is modelled by
`Option` (`none` is the panic). -/
def build_subtree {R : Type} (node : NodeBuilder R) :
    List String → Option (NodeBuilder R)
  | [] => some node
  | seg :: rest =>
    let key := parseSegment seg
    match (childEnsure node key.1 key.2).findChild key.1 key.2 with
    | none => none
    | some child =>
      match build_subtree child rest with
      | none => none
      | some child1 =>
        some ((childEnsure node key.1 key.2).setChild key.1 key.2 child1)

/-- The total course of `build_subtree`: same walk, with the (provably
unreachable, see theorem `routerBuildSubtreeUnwrapSafe`) missing-child
case as a no-op. -/
def buildTree {R : Type} (node : NodeBuilder R) : List String → NodeBuilder R
  | [] => node
  | seg :: rest =>
    let key := parseSegment seg
    match (childEnsure node key.1 key.2).findChild key.1 key.2 with
    | none => childEnsure node key.1 key.2
    | some child =>
      (childEnsure node key.1 key.2).setChild key.1 key.2 (buildTree child rest)

/-- The `(name, segment_type)` keys of a segment list: the address of the
node `build_subtree` returns a mutable borrow of. -/
def segKeys (segs : List String) : List (String × SegmentType) :=
  segs.map parseSegment

/-- The node of `t` addressed by a key path, if it exists. -/
def nodeAt {R : Type} (t : NodeBuilder R) :
    List (String × SegmentType) → Option (NodeBuilder R)
  | [] => some t
  | (n, st) :: ks =>
    match t.findChild n st with
    | none => none
    | some c => nodeAt c ks

/-- The route list of the node addressed by a key path (empty if the node
does not exist). -/
def routesAt {R : Type} (t : NodeBuilder R) (ks : List (String × SegmentType)) :
    List R :=
  match nodeAt t ks with
  | none => []
  | some n => n.routes

/-- Apply `f` to the node addressed by a key path (mutation through the
`&mut NodeBuilder` handed out by `request`); no-op if the path is absent
(a `&mut` cannot dangle, and `request` always creates the path first). -/
def modifyAt {R : Type} (f : NodeBuilder R → NodeBuilder R) (t : NodeBuilder R) :
    List (String × SegmentType) → NodeBuilder R
  | [] => f t
  | (n, st) :: ks =>
    match t.findChild n st with
    | none => t
    | some c => t.setChild n st (modifyAt f c ks)

/-! ## Observers: tree shape (node set) and route multiset -/

/-- A route-free tree: the "set of nodes" of a `NodeBuilder` tree, each
identified by its `(name, segment_type)` key and position. -/
inductive NodeShape : Type where
  | mk (name : String) (segment_type : SegmentType) (children : List NodeShape)

/-- Erase all route lists, keeping only the node structure. -/
def shape {R : Type} : NodeBuilder R → NodeShape
  | .mk n st cs _ => .mk n st (cs.attach.map fun c => shape c.1)
decreasing_by
  have h := List.sizeOf_lt_of_mem c.2
  simp only [NodeBuilder.mk.sizeOf_spec]
  omega

/-- All routes stored anywhere in the tree, in preorder. -/
def allRoutes {R : Type} : NodeBuilder R → List R
  | .mk _ _ cs rs => rs ++ (cs.attach.map fun c => allRoutes c.1).flatten
decreasing_by
  have h := List.sizeOf_lt_of_mem c.2
  simp only [NodeBuilder.mk.sizeOf_spec]
  omega

/-! ## The builder protocol (`RouterBuilder`, `RouterBuilderTo`) -/

/-- The registration-phase builder state: the tree root under construction
(`node_builder` in the source is a `&mut` into the `TreeBuilder`'s root),
plus the pipeline chain and pipeline set attached to every route
registered through it. `H` is the handler-factory type. -/
structure RouterBuilder (H C P : Type) : Type where
  node_builder : NodeBuilder (RouteImpl H C P)
  pipeline_chain : C
  pipelines : P

/-- The typed continuation returned by `get` / `post` / `request`: holds
the matcher, the address of the target node (the source holds a
`&mut NodeBuilder`, modelled by its key path from the root), the copied
pipeline chain, the cloned pipeline set, and the `Internal` delegation
flag. Only `.to` turns it into a stored route. -/
structure RouterBuilderTo (H C P : Type) : Type where
  matcher : MethodOnlyRouteMatcher
  node_path : List (String × SegmentType)
  pipeline_chain : C
  pipelines : P
  delegation : Delegation

variable {H C P : Type}

/-- `RouterBuilder::request(methods, path)`: strip one leading `/`; an
empty stripped path targets the root, otherwise `build_subtree` extends
the tree along `path.split("/")` and the target is the reached node.
Returns the updated builder together with the continuation. -/
def RouterBuilder.request (b : RouterBuilder H C P) (methods : List Method)
    (path : String) : RouterBuilder H C P × RouterBuilderTo H C P :=
  let path1 := stripSlash path
  let pr :=
    if path1.isEmpty then (b.node_builder, ([] : List (String × SegmentType)))
    else (buildTree b.node_builder (pathSplit path1), segKeys (pathSplit path1))
  ({ b with node_builder := pr.1 },
   { matcher := MethodOnlyRouteMatcher.new methods
     node_path := pr.2
     pipeline_chain := b.pipeline_chain
     pipelines := b.pipelines
     delegation := Delegation.Internal })

/-- `RouterBuilder::get(path)` = `request(vec![Get, Head], path)`. -/
def RouterBuilder.get (b : RouterBuilder H C P) (path : String) :
    RouterBuilder H C P × RouterBuilderTo H C P :=
  b.request [Method.Get, Method.Head] path

/-- `RouterBuilder::post(path)` = `request(vec![Post], path)`. -/
def RouterBuilder.post (b : RouterBuilder H C P) (path : String) :
    RouterBuilder H C P × RouterBuilderTo H C P :=
  b.request [Method.Post] path

/-- The route `RouterBuilderTo::to(new_handler)` builds: the stored
matcher, a `DispatcherImpl` over the handler factory, pipeline chain and
pipeline set, fresh (noop) extractors, and the stored delegation flag. -/
def RouterBuilderTo.route (c : RouterBuilderTo H C P) (new_handler : H) :
    RouteImpl H C P :=
  RouteImpl.new c.matcher
    (DispatcherImpl.new new_handler c.pipeline_chain c.pipelines) ()
    c.delegation

/-- `RouterBuilderTo::to(new_handler)`: build the route and
`add_route` it onto the node the continuation borrows (addressed by
`node_path` in the builder whose tree the borrow points into). -/
def RouterBuilderTo.to (c : RouterBuilderTo H C P) (b : RouterBuilder H C P)
    (new_handler : H) : RouterBuilder H C P :=
  { b with
    node_builder :=
      modifyAt (fun nd => nd.add_route (c.route new_handler))
        b.node_builder c.node_path }

/-- One full registration `route.request(methods, path).to(handler)`. -/
def registerPath (b : RouterBuilder H C P) (methods : List Method)
    (path : String) (new_handler : H) : RouterBuilder H C P :=
  (b.request methods path).2.to (b.request methods path).1 new_handler

/-- Modelled from the spec: `TreeBuilder::new()`'s root — "the tree has
exactly one root representing the empty path"; a fresh routeless,
childless node (its own key is never compared during registration). -/
def rootNode {R : Type} : NodeBuilder R :=
  NodeBuilder.new "/" SegmentType.Static

/-- A fresh `RouterBuilder` over an empty tree, as `build_router` creates
before running the registration closure. -/
def emptyBuilder (c : C) (p : P) : RouterBuilder H C P :=
  { node_builder := rootNode, pipeline_chain := c, pipelines := p }

/-! ## List-level helper lemmas -/

theorem any_eq_find_isSome {α : Type} (p : α → Bool) :
    ∀ l : List α, l.any p = (l.find? p).isSome := by
  intro l
  induction l with
  | nil => rfl
  | cons a as ih =>
    by_cases h : p a = true
    · simp [List.any_cons, List.find?_cons, h]
    · simp only [Bool.not_eq_true] at h
      simp [List.any_cons, List.find?_cons, h, ih]

theorem find?_replaceFirst_self {α : Type} (p : α → Bool) (x c : α)
    (hx : p x = true) :
    ∀ l : List α, l.find? p = some c → (replaceFirst p x l).find? p = some x := by
  intro l
  induction l with
  | nil => intro h; simp [List.find?] at h
  | cons a as ih =>
    intro h
    by_cases ha : p a = true
    · simp [replaceFirst, ha, List.find?_cons, hx]
    · simp only [Bool.not_eq_true] at ha
      simp only [List.find?_cons, ha] at h
      simp [replaceFirst, ha, List.find?_cons, ih h]

theorem replaceFirst_found {α : Type} (p : α → Bool) (c : α) :
    ∀ l : List α, l.find? p = some c → replaceFirst p c l = l := by
  intro l
  induction l with
  | nil => intro h; simp [List.find?] at h
  | cons a as ih =>
    intro h
    by_cases ha : p a = true
    · simp only [List.find?_cons, ha, Option.some.injEq] at h
      subst h
      simp [replaceFirst, ha]
    · simp only [Bool.not_eq_true] at ha
      simp only [List.find?_cons, ha] at h
      simp [replaceFirst, ha, ih h]

theorem map_replaceFirst_of_eq {α β : Type} (p : α → Bool) (c x : α) (f : α → β)
    (hf : f x = f c) :
    ∀ l : List α, l.find? p = some c →
      (replaceFirst p x l).map f = l.map f := by
  intro l
  induction l with
  | nil => intro h; simp [List.find?] at h
  | cons a as ih =>
    intro h
    by_cases ha : p a = true
    · simp only [List.find?_cons, ha, Option.some.injEq] at h
      subst h
      simp [replaceFirst, ha, List.map_cons, hf]
    · simp only [Bool.not_eq_true] at ha
      simp only [List.find?_cons, ha] at h
      simp [replaceFirst, ha, List.map_cons, ih h]

theorem find?_append_right_of_none {α : Type} (p : α → Bool) (x : α)
    (hx : p x = true) :
    ∀ l : List α, l.find? p = none → (l ++ [x]).find? p = some x := by
  intro l
  induction l with
  | nil => intro _; simp [List.find?_cons, hx]
  | cons a as ih =>
    intro h
    by_cases ha : p a = true
    · simp [List.find?_cons, ha] at h
    · simp only [Bool.not_eq_true] at ha
      simp only [List.find?_cons, ha] at h
      simp [List.cons_append, List.find?_cons, ha, ih h]

/-! ## Basic `NodeBuilder` lemmas -/

namespace NodeBuilder

variable {R : Type}

theorem keyIs_new (n : String) (st : SegmentType) :
    keyIs n st (new n st : NodeBuilder R) = true := by
  simp [keyIs, new, name, segment_type]

theorem name_of_keyIs {n : String} {st : SegmentType} {t : NodeBuilder R}
    (h : keyIs n st t = true) : t.name = n ∧ t.segment_type = st := by
  simpa [keyIs] using h

theorem has_child_eq_findChild_isSome (t : NodeBuilder R) (n : String)
    (st : SegmentType) : t.has_child n st = (t.findChild n st).isSome := by
  simp [has_child, findChild, any_eq_find_isSome]

theorem name_add_child (t c : NodeBuilder R) : (t.add_child c).name = t.name := rfl

theorem segment_type_add_child (t c : NodeBuilder R) :
    (t.add_child c).segment_type = t.segment_type := rfl

theorem name_setChild (t c : NodeBuilder R) (n : String) (st : SegmentType) :
    (t.setChild n st c).name = t.name := rfl

theorem segment_type_setChild (t c : NodeBuilder R) (n : String) (st : SegmentType) :
    (t.setChild n st c).segment_type = t.segment_type := rfl

theorem name_add_route (t : NodeBuilder R) (r : R) : (t.add_route r).name = t.name := rfl

theorem segment_type_add_route (t : NodeBuilder R) (r : R) :
    (t.add_route r).segment_type = t.segment_type := rfl

theorem routes_add_route (t : NodeBuilder R) (r : R) :
    (t.add_route r).routes = t.routes ++ [r] := rfl

theorem findChild_add_child_new (t : NodeBuilder R) (n : String) (st : SegmentType)
    (h : t.has_child n st = false) :
    (t.add_child (new n st)).findChild n st = some (new n st) := by
  have hnone : t.findChild n st = none := by
    cases hfc : t.findChild n st with
    | none => rfl
    | some c => rw [has_child_eq_findChild_isSome, hfc] at h; simp at h
  simp only [findChild, add_child, children] at hnone ⊢
  exact find?_append_right_of_none _ _ (keyIs_new n st) _ hnone

theorem findChild_setChild_self {t c : NodeBuilder R} {n : String} {st : SegmentType}
    (h : t.findChild n st = some c) (c' : NodeBuilder R)
    (hc' : keyIs n st c' = true) :
    (t.setChild n st c').findChild n st = some c' := by
  simp only [findChild, setChild, children]
  exact find?_replaceFirst_self _ _ _ hc' _ h

theorem setChild_found {t c : NodeBuilder R} {n : String} {st : SegmentType}
    (h : t.findChild n st = some c) : t.setChild n st c = t := by
  cases t with
  | mk tn tst cs rs =>
    simp only [findChild, children] at h
    simp only [setChild, children, name, segment_type, routes]
    rw [replaceFirst_found _ _ _ h]

theorem keyIs_of_findChild {t c : NodeBuilder R} {n : String} {st : SegmentType}
    (h : t.findChild n st = some c) : keyIs n st c = true :=
  List.find?_some h

end NodeBuilder

/-! ## Equations for the nested-recursive observers -/

theorem shape_mk {R : Type} (n : String) (st : SegmentType)
    (cs : List (NodeBuilder R)) (rs : List R) :
    shape (NodeBuilder.mk n st cs rs) = NodeShape.mk n st (cs.map shape) := by
  rw [shape]
  congr 1
  exact List.attach_map_coe cs shape

theorem allRoutes_mk {R : Type} (n : String) (st : SegmentType)
    (cs : List (NodeBuilder R)) (rs : List R) :
    allRoutes (NodeBuilder.mk n st cs rs) = rs ++ (cs.map allRoutes).flatten := by
  rw [allRoutes]
  congr 2
  exact List.attach_map_coe cs allRoutes

theorem shape_add_route {R : Type} (t : NodeBuilder R) (r : R) :
    shape (t.add_route r) = shape t := by
  cases t with
  | mk n st cs rs =>
    simp [NodeBuilder.add_route, NodeBuilder.name, NodeBuilder.segment_type,
      NodeBuilder.children, NodeBuilder.routes, shape_mk]

theorem shape_setChild_of_eq {R : Type} {t c : NodeBuilder R} {n : String}
    {st : SegmentType} (h : t.findChild n st = some c) (c' : NodeBuilder R)
    (hs : shape c' = shape c) : shape (t.setChild n st c') = shape t := by
  cases t with
  | mk tn tst cs rs =>
    simp only [NodeBuilder.findChild, NodeBuilder.children] at h
    simp only [NodeBuilder.setChild, NodeBuilder.children, NodeBuilder.name,
      NodeBuilder.segment_type, NodeBuilder.routes, shape_mk]
    rw [map_replaceFirst_of_eq _ _ _ shape hs _ h]

theorem allRoutes_new {R : Type} (n : String) (st : SegmentType) :
    allRoutes (NodeBuilder.new n st : NodeBuilder R) = [] := by
  simp [NodeBuilder.new, allRoutes_mk]

theorem allRoutes_add_child_new {R : Type} (t : NodeBuilder R) (n : String)
    (st : SegmentType) :
    allRoutes (t.add_child (NodeBuilder.new n st)) = allRoutes t := by
  cases t with
  | mk tn tst cs rs =>
    simp [NodeBuilder.add_child, NodeBuilder.name, NodeBuilder.segment_type,
      NodeBuilder.children, NodeBuilder.routes, allRoutes_mk, allRoutes_new]

theorem allRoutes_setChild_of_eq {R : Type} {t c : NodeBuilder R} {n : String}
    {st : SegmentType} (h : t.findChild n st = some c) (c' : NodeBuilder R)
    (hs : allRoutes c' = allRoutes c) :
    allRoutes (t.setChild n st c') = allRoutes t := by
  cases t with
  | mk tn tst cs rs =>
    simp only [NodeBuilder.findChild, NodeBuilder.children] at h
    simp only [NodeBuilder.setChild, NodeBuilder.children, NodeBuilder.name,
      NodeBuilder.segment_type, NodeBuilder.routes, allRoutes_mk]
    rw [map_replaceFirst_of_eq _ _ _ allRoutes hs _ h]

/-! ## Lemmas about the guarded-add step -/

theorem childEnsure_of_has_child {R : Type} {t : NodeBuilder R} {n : String}
    {st : SegmentType} (h : t.has_child n st = true) : childEnsure t n st = t := by
  simp [childEnsure, h]

theorem childEnsure_of_not_has_child {R : Type} {t : NodeBuilder R} {n : String}
    {st : SegmentType} (h : t.has_child n st = false) :
    childEnsure t n st = t.add_child (NodeBuilder.new n st) := by
  simp [childEnsure, h]

theorem childEnsure_findChild_isSome {R : Type} (t : NodeBuilder R) (n : String)
    (st : SegmentType) : ((childEnsure t n st).findChild n st).isSome = true := by
  by_cases h : t.has_child n st = true
  · rw [childEnsure_of_has_child h, ← NodeBuilder.has_child_eq_findChild_isSome]
    exact h
  · simp only [Bool.not_eq_true] at h
    rw [childEnsure_of_not_has_child h, NodeBuilder.findChild_add_child_new t n st h]
    rfl

theorem childEnsure_name {R : Type} (t : NodeBuilder R) (n : String)
    (st : SegmentType) : (childEnsure t n st).name = t.name := by
  by_cases h : t.has_child n st = true
  · rw [childEnsure_of_has_child h]
  · simp only [Bool.not_eq_true] at h
    rw [childEnsure_of_not_has_child h, NodeBuilder.name_add_child]

theorem childEnsure_segment_type {R : Type} (t : NodeBuilder R) (n : String)
    (st : SegmentType) : (childEnsure t n st).segment_type = t.segment_type := by
  by_cases h : t.has_child n st = true
  · rw [childEnsure_of_has_child h]
  · simp only [Bool.not_eq_true] at h
    rw [childEnsure_of_not_has_child h, NodeBuilder.segment_type_add_child]

theorem allRoutes_childEnsure {R : Type} (t : NodeBuilder R) (n : String)
    (st : SegmentType) : allRoutes (childEnsure t n st) = allRoutes t := by
  by_cases h : t.has_child n st = true
  · rw [childEnsure_of_has_child h]
  · simp only [Bool.not_eq_true] at h
    rw [childEnsure_of_not_has_child h, allRoutes_add_child_new]

/-! ## Lemmas about `nodeAt` / `routesAt` on trivial trees -/

theorem routesAt_new {R : Type} (n : String) (st : SegmentType)
    (ks : List (String × SegmentType)) :
    routesAt (NodeBuilder.new n st : NodeBuilder R) ks = [] := by
  cases ks with
  | nil => rfl
  | cons k ks =>
    obtain ⟨m, su⟩ := k
    simp [routesAt, nodeAt, NodeBuilder.findChild, NodeBuilder.new,
      NodeBuilder.children, List.find?]

/-! ## Main structure lemmas about `buildTree` and `modifyAt` -/

theorem buildTree_name_segment_type {R : Type} :
    ∀ (segs : List String) (t : NodeBuilder R),
      (buildTree t segs).name = t.name ∧
      (buildTree t segs).segment_type = t.segment_type := by
  intro segs
  induction segs with
  | nil => intro t; exact ⟨rfl, rfl⟩
  | cons seg rest ih =>
    intro t
    simp only [buildTree]
    cases hfc : (childEnsure t (parseSegment seg).1 (parseSegment seg).2).findChild
        (parseSegment seg).1 (parseSegment seg).2 with
    | none => exact ⟨childEnsure_name .., childEnsure_segment_type ..⟩
    | some child =>
      exact ⟨by rw [NodeBuilder.name_setChild, childEnsure_name],
             by rw [NodeBuilder.segment_type_setChild, childEnsure_segment_type]⟩

/-- `buildTree` reaches a node at the key path of the walked segments, and
that node's routes are exactly whatever routes were already at that key
path (none, if the path was just created). -/
theorem nodeAt_buildTree {R : Type} :
    ∀ (segs : List String) (t : NodeBuilder R),
      ∃ m, nodeAt (buildTree t segs) (segKeys segs) = some m ∧
        m.routes = routesAt t (segKeys segs) := by
  intro segs
  induction segs with
  | nil => intro t; exact ⟨t, rfl, rfl⟩
  | cons seg rest ih =>
    intro t
    rcases hps : parseSegment seg with ⟨n, st⟩
    simp only [buildTree, segKeys, List.map_cons, hps]
    cases hfc : (childEnsure t n st).findChild n st with
    | none =>
      have := childEnsure_findChild_isSome t n st
      rw [hfc] at this
      simp at this
    | some child =>
      obtain ⟨m, hm, hr⟩ := ih child
      simp only [segKeys] at hm hr
      have hkey : NodeBuilder.keyIs n st (buildTree child rest) = true := by
        have hk := NodeBuilder.keyIs_of_findChild hfc
        obtain ⟨h1, h2⟩ := NodeBuilder.name_of_keyIs hk
        obtain ⟨h3, h4⟩ := buildTree_name_segment_type rest child
        simp [NodeBuilder.keyIs, h3, h4, h1, h2]
      have hstep : nodeAt
            ((childEnsure t n st).setChild n st (buildTree child rest))
            ((n, st) :: List.map parseSegment rest)
          = nodeAt (buildTree child rest) (List.map parseSegment rest) := by
        simp only [nodeAt]
        rw [NodeBuilder.findChild_setChild_self hfc _ hkey]
      rw [hstep]
      refine ⟨m, hm, ?_⟩
      rw [hr]
      by_cases hhc : t.has_child n st = true
      · rw [childEnsure_of_has_child hhc] at hfc
        simp only [routesAt, nodeAt, hfc]
      · simp only [Bool.not_eq_true] at hhc
        rw [childEnsure_of_not_has_child hhc,
          NodeBuilder.findChild_add_child_new t _ _ hhc] at hfc
        cases hfc
        have hnone : t.findChild n st = none := by
          cases hx : t.findChild n st with
          | none => rfl
          | some c =>
            rw [NodeBuilder.has_child_eq_findChild_isSome, hx] at hhc
            simp at hhc
        simp only [routesAt, nodeAt, hnone]
        exact routesAt_new ..

/-- Re-walking a path whose nodes all already exist changes nothing:
`buildTree` is the identity on trees that already contain the path. -/
theorem buildTree_of_nodeAt_isSome {R : Type} :
    ∀ (segs : List String) (t m : NodeBuilder R),
      nodeAt t (segKeys segs) = some m → buildTree t segs = t := by
  intro segs
  induction segs with
  | nil => intro t m _; rfl
  | cons seg rest ih =>
    intro t m h
    rcases hps : parseSegment seg with ⟨n, st⟩
    have hsk : segKeys (seg :: rest) = (n, st) :: segKeys rest := by
      simp [segKeys, hps]
    rw [hsk] at h
    simp only [nodeAt] at h
    cases hx : t.findChild n st with
    | none => rw [hx] at h; cases h
    | some c =>
      rw [hx] at h
      have hhc : t.has_child n st = true := by
        rw [NodeBuilder.has_child_eq_findChild_isSome, hx]; rfl
      simp only [buildTree, hps, childEnsure_of_has_child hhc, hx]
      rw [ih c m h]
      exact NodeBuilder.setChild_found hx

/-- `modifyAt` with `add_route` keeps the target's key. -/
theorem modifyAt_add_route_name_segment_type {R : Type} (r : R) :
    ∀ (ks : List (String × SegmentType)) (t : NodeBuilder R),
      (modifyAt (fun nd => nd.add_route r) t ks).name = t.name ∧
      (modifyAt (fun nd => nd.add_route r) t ks).segment_type = t.segment_type := by
  intro ks
  induction ks with
  | nil => intro t; exact ⟨rfl, rfl⟩
  | cons k ks ih =>
    intro t
    obtain ⟨n, st⟩ := k
    simp only [modifyAt]
    cases hx : t.findChild n st with
    | none => exact ⟨rfl, rfl⟩
    | some c => exact ⟨rfl, rfl⟩

/-- Adding a route through `modifyAt` appends it to the route list of the
addressed node and of no other. -/
theorem nodeAt_modifyAt_add_route {R : Type} (r : R) :
    ∀ (ks : List (String × SegmentType)) (t m : NodeBuilder R),
      nodeAt t ks = some m →
      nodeAt (modifyAt (fun nd => nd.add_route r) t ks) ks = some (m.add_route r) := by
  intro ks
  induction ks with
  | nil =>
    intro t m h
    cases h
    rfl
  | cons k ks ih =>
    intro t m h
    obtain ⟨n, st⟩ := k
    simp only [nodeAt] at h
    cases hx : t.findChild n st with
    | none => rw [hx] at h; cases h
    | some c =>
      rw [hx] at h
      simp only [modifyAt, hx]
      have hkey : NodeBuilder.keyIs n st (modifyAt (fun nd => nd.add_route r) c ks) = true := by
        have hk := NodeBuilder.keyIs_of_findChild hx
        obtain ⟨h1, h2⟩ := NodeBuilder.name_of_keyIs hk
        obtain ⟨h3, h4⟩ := modifyAt_add_route_name_segment_type r ks c
        simp [NodeBuilder.keyIs, h1, h2, h3, h4]
      simp only [nodeAt]
      rw [NodeBuilder.findChild_setChild_self hx _ hkey]
      exact ih c m h

/-- Adding a route anywhere leaves the tree's node structure unchanged. -/
theorem shape_modifyAt_add_route {R : Type} (r : R) :
    ∀ (ks : List (String × SegmentType)) (t : NodeBuilder R),
      shape (modifyAt (fun nd => nd.add_route r) t ks) = shape t := by
  intro ks
  induction ks with
  | nil => intro t; exact shape_add_route t r
  | cons k ks ih =>
    intro t
    obtain ⟨n, st⟩ := k
    simp only [modifyAt]
    cases hx : t.findChild n st with
    | none => rfl
    | some c => exact shape_setChild_of_eq hx _ (ih c)

/-- `buildTree` inserts no route anywhere: the routes of the whole tree,
in preorder, are unchanged. -/
theorem allRoutes_buildTree {R : Type} :
    ∀ (segs : List String) (t : NodeBuilder R),
      allRoutes (buildTree t segs) = allRoutes t := by
  intro segs
  induction segs with
  | nil => intro t; rfl
  | cons seg rest ih =>
    intro t
    rcases hps : parseSegment seg with ⟨n, st⟩
    simp only [buildTree, hps]
    cases hfc : (childEnsure t n st).findChild n st with
    | none =>
      have := childEnsure_findChild_isSome t n st
      rw [hfc] at this
      simp at this
    | some child =>
      rw [allRoutes_setChild_of_eq hfc _ (ih child)]
      exact allRoutes_childEnsure t n st

/-- The unwrap in `build_subtree` never fires: the fallible walk equals
`some` of the total walk. -/
theorem build_subtree_eq_some_buildTree {R : Type} :
    ∀ (segs : List String) (t : NodeBuilder R),
      build_subtree t segs = some (buildTree t segs) := by
  intro segs
  induction segs with
  | nil => intro t; rfl
  | cons seg rest ih =>
    intro t
    rcases hps : parseSegment seg with ⟨n, st⟩
    simp only [build_subtree, buildTree, hps]
    cases hfc : (childEnsure t n st).findChild n st with
    | none =>
      have := childEnsure_findChild_isSome t n st
      rw [hfc] at this
      simp at this
    | some child =>
      dsimp only
      rw [ih child]

/-! ## Path-splitting lemmas -/

theorem splitSlash_ne_nil : ∀ cs : List Char, splitSlash cs ≠ [] := by
  intro cs
  induction cs with
  | nil => simp [splitSlash]
  | cons c cs ih =>
    by_cases hc : c = '/'
    · simp [splitSlash, hc]
    · simp only [splitSlash, hc, if_false]
      cases hs : splitSlash cs with
      | nil => simp
      | cons s ss => simp

theorem splitSlash_head_ne_empty :
    ∀ (c : Char) (cs : List Char), c ≠ '/' →
      ∀ s ss, splitSlash (c :: cs) = s :: ss → s ≠ "" := by
  intro c cs hc s ss h
  simp only [splitSlash, hc, if_false] at h
  cases hs : splitSlash cs with
  | nil =>
    rw [hs] at h
    simp only [List.cons.injEq] at h
    intro he
    rw [← h.1] at he
    have : ([c] : List Char) = [] := congrArg String.data he
    cases this
  | cons s' ss' =>
    rw [hs] at h
    simp only [List.cons.injEq] at h
    intro he
    rw [← h.1] at he
    have : (c :: s'.data : List Char) = [] := congrArg String.data he
    cases this

/-- `parseSegment` in `head?`/`tail` form: a leading `:` means a dynamic
key named by the rest of the segment, anything else a static key named by
the whole segment. -/
theorem parseSegment_eq (seg : String) :
    parseSegment seg =
      if seg.data.head? = some ':' then (String.mk seg.data.tail, SegmentType.Dynamic)
      else (seg, SegmentType.Static) := by
  unfold parseSegment
  split
  · next rest heq =>
    simp [heq]
  · next x hne =>
    have hcond : ¬seg.data.head? = some ':' := by
      intro hh
      cases hd : seg.data with
      | nil => rw [hd] at hh; cases hh
      | cons c cs =>
        rw [hd] at hh
        simp only [List.head?_cons, Option.some.injEq] at hh
        exact hne cs (by rw [hd, hh])
    simp [hcond]

/-- After walking `seg :: rest`, the current node has a child keyed by
`parseSegment seg`. -/
theorem has_child_buildTree {R : Type} (t : NodeBuilder R) (seg : String)
    (rest : List String) :
    (buildTree t (seg :: rest)).has_child (parseSegment seg).1
      (parseSegment seg).2 = true := by
  obtain ⟨m, hm, -⟩ := nodeAt_buildTree (seg :: rest) t
  rcases hps : parseSegment seg with ⟨n, st⟩
  rw [show segKeys (seg :: rest) = (n, st) :: segKeys rest from by
    simp [segKeys, hps]] at hm
  simp only [nodeAt] at hm
  simp only [hps]
  cases hx : (buildTree t (seg :: rest)).findChild n st with
  | none => rw [hx] at hm; cases hm
  | some c => rw [NodeBuilder.has_child_eq_findChild_isSome, hx]; rfl

/-! ## Characterizations of the builder protocol -/

theorem request_fst_node_builder {H C P : Type} (b : RouterBuilder H C P)
    (ms : List Method) (pth : String) :
    (b.request ms pth).1.node_builder =
      if (stripSlash pth).isEmpty then b.node_builder
      else buildTree b.node_builder (pathSplit (stripSlash pth)) := by
  by_cases h : (stripSlash pth).isEmpty = true
  · simp [RouterBuilder.request, h]
  · simp only [Bool.not_eq_true] at h
    simp [RouterBuilder.request, h]

theorem request_snd_node_path {H C P : Type} (b : RouterBuilder H C P)
    (ms : List Method) (pth : String) :
    (b.request ms pth).2.node_path =
      if (stripSlash pth).isEmpty then []
      else segKeys (pathSplit (stripSlash pth)) := by
  by_cases h : (stripSlash pth).isEmpty = true
  · simp [RouterBuilder.request, h]
  · simp only [Bool.not_eq_true] at h
    simp [RouterBuilder.request, h]

theorem registerPath_node_builder {H C P : Type} (b : RouterBuilder H C P)
    (ms : List Method) (pth : String) (nh : H) :
    (registerPath b ms pth nh).node_builder =
      modifyAt (fun nd => nd.add_route ((b.request ms pth).2.route nh))
        ((b.request ms pth).1.node_builder) ((b.request ms pth).2.node_path) := rfl

theorem registerPath_pipeline_chain {H C P : Type} (b : RouterBuilder H C P)
    (ms : List Method) (pth : String) (nh : H) :
    (registerPath b ms pth nh).pipeline_chain = b.pipeline_chain := rfl

theorem registerPath_pipelines {H C P : Type} (b : RouterBuilder H C P)
    (ms : List Method) (pth : String) (nh : H) :
    (registerPath b ms pth nh).pipelines = b.pipelines := rfl

/-- The node `request` hands a mutable borrow of exists in the tree
`request` returns, and its routes are whatever the original tree already
had at that address. -/
theorem nodeAt_request_node_path {H C P : Type} (b : RouterBuilder H C P)
    (ms : List Method) (pth : String) :
    ∃ m, nodeAt ((b.request ms pth).1.node_builder)
          ((b.request ms pth).2.node_path) = some m ∧
      m.routes = routesAt b.node_builder ((b.request ms pth).2.node_path) := by
  rw [request_fst_node_builder, request_snd_node_path]
  by_cases h : (stripSlash pth).isEmpty = true
  · simp only [h, if_true]
    exact ⟨b.node_builder, rfl, rfl⟩
  · simp only [h, Bool.false_eq_true, if_false]
    exact nodeAt_buildTree _ _

/-- Finalizing a continuation with `.to` appends exactly the built route
to the route list at the continuation's target address. -/
theorem routesAt_after_to {H C P : Type} (b : RouterBuilder H C P)
    (ms : List Method) (pth : String) (nh : H) :
    routesAt ((registerPath b ms pth nh).node_builder)
        ((b.request ms pth).2.node_path)
      = routesAt b.node_builder ((b.request ms pth).2.node_path)
        ++ [(b.request ms pth).2.route nh] := by
  obtain ⟨m, hm, hr⟩ := nodeAt_request_node_path b ms pth
  have h2 := nodeAt_modifyAt_add_route ((b.request ms pth).2.route nh) _ _ _ hm
  rw [registerPath_node_builder]
  simp only [routesAt, h2]
  rw [NodeBuilder.routes_add_route, hr]
  simp only [routesAt]

/-! ## Claim theorems -/

/-- Claim C3: for every segment string in a registration path, if the
segment starts with `:` then a `Dynamic` node named by the segment with
the leading `:` stripped is created (or reused); otherwise a `Static`
node named by the full segment is created (or reused): after
`buildTree` processes `seg`, the current node has exactly that child. -/
theorem routerC3_segment_classification :
    ∀ (R : Type) (t : NodeBuilder R) (seg : String) (rest : List String),
      (buildTree t (seg :: rest)).has_child
        (if seg.data.head? = some ':' then String.mk seg.data.tail else seg)
        (if seg.data.head? = some ':' then SegmentType.Dynamic
         else SegmentType.Static) = true := by
  intro R t seg rest
  have h := has_child_buildTree t seg rest
  rw [parseSegment_eq] at h
  by_cases hc : seg.data.head? = some ':'
  · simpa [hc] using h
  · simpa [hc] using h

/-- Claim C4: `"/"` and `""` are equivalent route keys — `request` on
either produces identical results, the continuation targets the root
(empty node path), and finalizing it with `.to` appends the route to the
root node itself. -/
theorem routerC4_root_path_equivalence :
    ∀ (H C P : Type) (b : RouterBuilder H C P) (ms : List Method) (h : H),
      b.request ms "/" = b.request ms "" ∧
      (b.request ms "/").2.node_path = [] ∧
      ((b.request ms "/").2.to (b.request ms "/").1 h).node_builder
        = b.node_builder.add_route ((b.request ms "/").2.route h) := by
  intro H C P b ms h
  exact ⟨rfl, rfl, rfl⟩

/-- Claim C5, counterexample: the path `"//x"` strips to `"/x"`, which is
non-empty, yet the first segment passed to `build_subtree` is the empty
string — so a non-empty stripped path can still produce an empty leading
segment, contrary to the claim. -/
theorem routerC5_counterexample :
    stripSlash "//x" ≠ "" ∧ stripSlash "//x" = "/x" ∧
      (pathSplit (stripSlash "//x")).head? = some "" := by
  refine ⟨?_, by decide, by decide⟩
  decide

/-- Claim C5 (amended): for every path whose stripped form is non-empty
and does not itself start with `/`, the first segment passed to
`build_subtree` is non-empty. -/
theorem routerC5_amended_first_segment_nonempty :
    ∀ p : String, stripSlash p ≠ "" → (stripSlash p).data.head? ≠ some '/' →
      ∀ s ss, pathSplit (stripSlash p) = s :: ss → s ≠ "" := by
  intro p hne hhd s ss h
  cases hd : (stripSlash p).data with
  | nil =>
    exact absurd (String.ext hd) hne
  | cons c cs =>
    have hc : c ≠ '/' := by
      intro hc
      apply hhd
      rw [hd, hc]
      rfl
    rw [pathSplit, hd] at h
    exact splitSlash_head_ne_empty c cs hc s ss h

/-- Witness for the amended C5 at the concrete path `"x"`. -/
theorem routerC5_amended_witness :
    stripSlash "x" ≠ "" ∧ (stripSlash "x").data.head? ≠ some '/' ∧
      pathSplit (stripSlash "x") = ["x"] ∧ ("x" : String) ≠ "" :=
  ⟨by decide, by decide, by decide,
   routerC5_amended_first_segment_nonempty "x" (by decide) (by decide) "x" []
     (by decide)⟩

/-- Claim C9: `get(path)` registers a matcher whose method set is exactly
`[GET, HEAD]`, and `post(path)` one whose method set is exactly
`[POST]`; both are plain wrappers around `request`. -/
theorem routerC9_get_post_methods :
    ∀ (H C P : Type) (b : RouterBuilder H C P) (p : String),
      (b.get p).2.matcher.methods = [Method.Get, Method.Head] ∧
      (b.post p).2.matcher.methods = [Method.Post] ∧
      b.get p = b.request [Method.Get, Method.Head] p ∧
      b.post p = b.request [Method.Post] p := by
  intro H C P b p
  exact ⟨rfl, rfl, rfl, rfl⟩

/-- Claim C10: the `unwrap` on `borrow_mut_child` inside `build_subtree`
never panics — the fallible walk always succeeds, returning exactly the
total walk's result. -/
theorem routerBuildSubtreeUnwrapSafe :
    ∀ (R : Type) (t : NodeBuilder R) (segs : List String),
      (build_subtree t segs).isSome = true ∧
      build_subtree t segs = some (buildTree t segs) := by
  intro R t segs
  refine ⟨?_, build_subtree_eq_some_buildTree segs t⟩
  rw [build_subtree_eq_some_buildTree segs t]
  rfl

/-- Claim C1: registration is idempotent on tree structure — registering a
route at the same path a second time (with any methods and handler)
creates no new tree nodes: the node structure after two registrations
equals the node structure after one; only route lists grow. -/
theorem routerC1_reregistration_adds_no_nodes :
    ∀ (H C P : Type) (b : RouterBuilder H C P) (ms1 ms2 : List Method)
      (pth : String) (h1 h2 : H),
      shape ((registerPath (registerPath b ms1 pth h1) ms2 pth h2).node_builder)
        = shape ((registerPath b ms1 pth h1).node_builder) := by
  intro H C P b ms1 ms2 pth h1 h2
  rw [registerPath_node_builder (registerPath b ms1 pth h1) ms2 pth h2]
  rw [shape_modifyAt_add_route]
  rw [request_fst_node_builder]
  by_cases h : (stripSlash pth).isEmpty = true
  · simp [h]
  · simp only [h, Bool.false_eq_true, if_false]
    have hex : ∃ m, nodeAt ((registerPath b ms1 pth h1).node_builder)
        (segKeys (pathSplit (stripSlash pth))) = some m := by
      rw [registerPath_node_builder, request_fst_node_builder, request_snd_node_path]
      simp only [h, Bool.false_eq_true, if_false]
      obtain ⟨m, hm, -⟩ := nodeAt_buildTree (pathSplit (stripSlash pth)) b.node_builder
      exact ⟨m.add_route _, nodeAt_modifyAt_add_route _ _ _ _ hm⟩
    obtain ⟨m, hm⟩ := hex
    rw [buildTree_of_nodeAt_isSome _ _ m hm]

/-- Claim C2: partial registrations are invisible — a call to `request`
(or `get` or `post`) that is never finalized with `.to` changes no node's
route list: the routes of the whole tree are exactly those before the
call. -/
theorem routerC2_partial_registration_invisible :
    ∀ (H C P : Type) (b : RouterBuilder H C P) (ms : List Method) (pth : String),
      allRoutes ((b.request ms pth).1.node_builder) = allRoutes b.node_builder ∧
      allRoutes ((b.get pth).1.node_builder) = allRoutes b.node_builder ∧
      allRoutes ((b.post pth).1.node_builder) = allRoutes b.node_builder := by
  intro H C P b ms pth
  have key : ∀ ms' : List Method,
      allRoutes ((b.request ms' pth).1.node_builder) = allRoutes b.node_builder := by
    intro ms'
    rw [request_fst_node_builder]
    by_cases h : (stripSlash pth).isEmpty = true
    · simp [h]
    · simp only [h, Bool.false_eq_true, if_false]
      exact allRoutes_buildTree _ _
  exact ⟨key ms, key [Method.Get, Method.Head], key [Method.Post]⟩

/-- Claim C6: segment type is part of node identity — registering at
`"/users"` and then at `"/:users"` creates two distinct sibling children
of the root, keyed `("users", Static)` and `("users", Dynamic)`, the
second registration neither reusing nor clobbering the first's node. -/
theorem routerC6_static_dynamic_siblings :
    ∀ (H C P : Type) (c : C) (p : P) (ms1 ms2 : List Method) (h1 h2 : H),
      (registerPath (registerPath (emptyBuilder (H := H) c p) ms1 "/users" h1)
          ms2 "/:users" h2).node_builder.children
        = [NodeBuilder.mk "users" SegmentType.Static []
             [RouteImpl.new (MethodOnlyRouteMatcher.new ms1)
                (DispatcherImpl.new h1 c p) () Delegation.Internal],
           NodeBuilder.mk "users" SegmentType.Dynamic []
             [RouteImpl.new (MethodOnlyRouteMatcher.new ms2)
                (DispatcherImpl.new h2 c p) () Delegation.Internal]] := by
  intro H C P c p ms1 ms2 h1 h2
  rfl

/-- Claim C7: registering the same path twice with different methods (each
finalized with `.to`) leaves both routes on the single node the path
addresses, appended in registration order. -/
theorem routerC7_same_path_shares_node :
    ∀ (H C P : Type) (b : RouterBuilder H C P) (ms1 ms2 : List Method)
      (pth : String) (h1 h2 : H),
      routesAt ((registerPath (registerPath b ms1 pth h1) ms2 pth h2).node_builder)
          ((b.request ms1 pth).2.node_path)
        = routesAt b.node_builder ((b.request ms1 pth).2.node_path)
          ++ [RouteImpl.new (MethodOnlyRouteMatcher.new ms1)
                (DispatcherImpl.new h1 b.pipeline_chain b.pipelines) ()
                Delegation.Internal,
              RouteImpl.new (MethodOnlyRouteMatcher.new ms2)
                (DispatcherImpl.new h2 b.pipeline_chain b.pipelines) ()
                Delegation.Internal] := by
  intro H C P b ms1 ms2 pth h1 h2
  have hfirst := routesAt_after_to b ms1 pth h1
  have hsecond := routesAt_after_to (registerPath b ms1 pth h1) ms2 pth h2
  have hnp : ((registerPath b ms1 pth h1).request ms2 pth).2.node_path
      = (b.request ms1 pth).2.node_path := by
    rw [request_snd_node_path, request_snd_node_path]
  rw [hnp] at hsecond
  rw [hsecond, hfirst]
  have hr1 : (b.request ms1 pth).2.route h1
      = RouteImpl.new (MethodOnlyRouteMatcher.new ms1)
          (DispatcherImpl.new h1 b.pipeline_chain b.pipelines) ()
          Delegation.Internal := rfl
  have hr2 : ((registerPath b ms1 pth h1).request ms2 pth).2.route h2
      = RouteImpl.new (MethodOnlyRouteMatcher.new ms2)
          (DispatcherImpl.new h2 b.pipeline_chain b.pipelines) ()
          Delegation.Internal := rfl
  rw [hr1, hr2, List.append_assoc]
  rfl

/-- Claim C8: every route inserted through `.to(handler)` consists of a
`MethodOnlyRouteMatcher` built from exactly the methods supplied to
`request`, a dispatcher wrapping the supplied handler factory together
with the builder's pipeline chain and pipeline set, and the `Internal`
delegation flag — and `.to` appends exactly that route at the target
node. -/
theorem routerC8_route_composition :
    ∀ (H C P : Type) (b : RouterBuilder H C P) (ms : List Method)
      (pth : String) (nh : H),
      (b.request ms pth).2.matcher = MethodOnlyRouteMatcher.new ms ∧
      (b.request ms pth).2.delegation = Delegation.Internal ∧
      (b.request ms pth).2.route nh
        = RouteImpl.new (MethodOnlyRouteMatcher.new ms)
            (DispatcherImpl.new nh b.pipeline_chain b.pipelines) ()
            Delegation.Internal ∧
      routesAt ((registerPath b ms pth nh).node_builder)
          ((b.request ms pth).2.node_path)
        = routesAt b.node_builder ((b.request ms pth).2.node_path)
          ++ [RouteImpl.new (MethodOnlyRouteMatcher.new ms)
                (DispatcherImpl.new nh b.pipeline_chain b.pipelines) ()
                Delegation.Internal] := by
  intro H C P b ms pth nh
  exact ⟨rfl, rfl, rfl, routesAt_after_to b ms pth nh⟩

end Gotham
